import Mathlib

/-!
Shallow embedding of the resumable streaming session engine of
`frontend/src/App.jsx` (baeGil/calculus-agent): message-list parsing with
the typing simulation, the send/stream-decode loop, pin toggling, durable
metadata loading, and conversation deletion.

Modelling conventions:
* JS strings are Lean `String`s (one `Char` per code unit of the texts
  involved); JS epoch-millisecond timestamps are `Int`.
* Object fields that a given code path leaves `undefined` are modelled by
  structure-field defaults (`undefined` is falsy, so `false`/`none`/`[]`).
* Platform primitives (`fetch`, `JSON.parse`, `localStorage`,
  `new Date(...).getTime()`) are oracles: their results are *inputs* to
  the embedded functions, while every branch the source performs on those
  results is translated directly.
* A thrown-and-uncaught JS exception is modelled by `Except.error`.
-/

namespace CalcAgent

/-- A message of the client's message buffer (the `messages` React state in
`App.jsx`).  `role` is the JS string field (`"user"`/`"assistant"`);
`fullContent` models the hidden `_fullContent` property used by the typing
simulation; absent fields default to their falsy values. -/
structure Msg where
  role : String
  content : String
  images : List String := []
  isStreaming : Bool := false
  isSimulating : Bool := false
  status : Option String := none
  fullContent : Option String := none
  deriving Repr, DecidableEq

/-- Result of the `JSON.parse(m.image_data)` attempt in `parseMessagesData`
(`App.jsx` 355-365): `arr` when it parses to a JS array of base64 strings,
`single` otherwise (non-array parse result, or parse failure), in which
case the raw `m.image_data` string is used as a single image. -/
inductive ImageData
  | arr (b64s : List String)
  | single (raw : String)
  deriving Repr, DecidableEq

/-- One record of `GET /conversations/:id/messages` as consumed by
`parseMessagesData`.  `created_at` is the oracle value
`new Date(m.created_at).getTime()` in epoch milliseconds; `content` is
`none` when the field is null or undefined (the code reads
`m.content || ''`). -/
structure RawMsg where
  role : String
  content : Option String := none
  image_data : Option ImageData := none
  created_at : Int := 0
  deriving Repr, DecidableEq

/-- `String.prototype.trim` modelled on code-unit lists (whitespace
stripped from both ends). -/
def jsTrim (s : String) : String :=
  ⟨((s.data.dropWhile Char.isWhitespace).reverse.dropWhile Char.isWhitespace).reverse⟩

/-- `s.substring(0, n)` for `0 ≤ n`: the first `n` code units. -/
def jsSubstring (s : String) (n : Nat) : String := ⟨s.data.take n⟩

/-- The image-decoding block of `parseMessagesData` (`App.jsx` 354-366). -/
def parseImages : Option ImageData → List String
  | none => []
  | some (.arr bs) => bs.map (fun b => "data:image/jpeg;base64," ++ b)
  | some (.single raw) => ["data:image/jpeg;base64," ++ raw]

/-- The body of the `data.map` callback of `parseMessagesData`
(`App.jsx` 353-397) for one record `m`; `isLast` is
`idx === data.length - 1`, `now` is `new Date().getTime()`.
`Math.floor(elapsed * TYPING_SPEED)` with `TYPING_SPEED = 0.25` is embedded
as `Int.fdiv elapsed 4`: for integer millisecond deltas the JS float
product `elapsed * 0.25` is exact (scaling by a power of two), so its
floor is the floored division by 4.  `fullContent.substring(0, k)` with
`k = Math.max(0, expectedVisibleLength)` is `jsSubstring` at `k`. -/
def parseOne (now : Int) (isLast : Bool) (m : RawMsg) : Msg :=
  let images := parseImages m.image_data
  let elapsed := now - m.created_at
  let fullContent := m.content.getD ""
  let base : Msg :=
    { role := m.role, content := fullContent, images := images,
      isStreaming := decide (m.role = "assistant" ∧ fullContent = "") }
  if isLast = true ∧ m.role = "assistant" ∧ fullContent ≠ "" then
    let expectedVisibleLength : Int := Int.fdiv elapsed 4
    if expectedVisibleLength < (fullContent.length : Int) then
      { role := m.role,
        content := jsSubstring fullContent (max 0 expectedVisibleLength).toNat,
        fullContent := some fullContent,
        images := images,
        isStreaming := true,
        isSimulating := true }
    else base
  else base

/-- `parseMessagesData` (`App.jsx` 349-398): maps `parseOne` over the
fetched records, marking exactly the final record with
`idx === data.length - 1`. -/
def parseMessagesData (now : Int) : List RawMsg → List Msg
  | [] => []
  | [m] => [parseOne now true m]
  | m :: m2 :: rest => parseOne now false m :: parseMessagesData now (m2 :: rest)

/-! ### The send / stream-decode loop (`sendMessage`, `App.jsx` 517-642) -/

/-- Classification of the `JSON.parse(data)` attempt on one stream payload
(`App.jsx` 576-578) together with the subsequent `typeof` branching
(579-596).  `throws` means `JSON.parse` raised, so the code falls back to
the raw payload string; `str` is a JSON string result; the three `obj*`
constructors are objects with a truthy `type` of the given shape
(`objToken`'s field is the string JS appends, after its `+=` coercion);
`objOther` is any other object result, including arrays and objects with a
missing or unrecognized `type`; `prim` is a non-object, non-string result
(number, boolean, null-free primitives).  Both `objOther` and `prim` fall
through every branch of the source and have no effect. -/
inductive JsParsed
  | throws
  | str (s : String)
  | objToken (content : String)
  | objStatus (status : String)
  | objDone
  | objOther
  | prim
  deriving Repr, DecidableEq

/-- One non-blank line of a decoded chunk, paired with the oracle result of
`JSON.parse` on its payload (the part after `data: `). -/
structure LineRec where
  text : String
  parsed : JsParsed
  deriving Repr, DecidableEq

/-- Mutation of the final element of the buffer, as performed by
`newMessages[newMessages.length - 1].field = v` after copying the array
(`App.jsx` 585-589, 600-605, 617-624, 628-636); the identity on an empty
buffer, matching the `length > 0` / `if (lastMsg)` guards. -/
def setLast (f : Msg → Msg) : List Msg → List Msg
  | [] => []
  | [m] => [f m]
  | m :: m2 :: rest => m :: setLast f (m2 :: rest)

/-- The `line.startsWith('data: ')` guard plus `line.slice(6)`
(`App.jsx` 572-573): `some payload` when the line begins with the
six-character marker, `none` otherwise (in which case the line is
skipped). -/
def lineData (t : String) : Option String :=
  match t.data with
  | 'd' :: 'a' :: 't' :: 'a' :: ':' :: ' ' :: rest => some (String.mk rest)
  | _ => none

/-- State carried through one record of the decode loop:
`acc` is `assistantMessage`, `batch` is `batchTokens`, `msgs` the buffer,
`stop` whether a `break` fired. -/
structure DecodeStep where
  acc : String
  batch : Nat
  msgs : List Msg
  stop : Bool
  deriving Repr, DecidableEq

/-- Processing of one `data:` record (`App.jsx` 574-596): the literal
`[DONE]` check, then the branch on the `JSON.parse` outcome.  Token-like
payloads extend the accumulator and bump the batch counter; a `status`
payload sets the last message's status label; `done` (like `[DONE]`)
requests a `break`; every other payload shape is ignored. -/
def decodeRecord (acc : String) (batch : Nat) (msgs : List Msg) (data : String)
    (p : JsParsed) : DecodeStep :=
  if data = "[DONE]" then ⟨acc, batch, msgs, true⟩
  else
    match p with
    | .throws => ⟨acc ++ data, batch + 1, msgs, false⟩
    | .str s => ⟨acc ++ s, batch + 1, msgs, false⟩
    | .objToken c => ⟨acc ++ c, batch + 1, msgs, false⟩
    | .objStatus st => ⟨acc, batch, setLast (fun m => { m with status := some st }) msgs, false⟩
    | .objDone => ⟨acc, batch, msgs, true⟩
    | .objOther => ⟨acc, batch, msgs, false⟩
    | .prim => ⟨acc, batch, msgs, false⟩

/-- The `for` loop over one chunk's non-blank lines (`App.jsx` 570-613).
Returns the accumulator, the buffer, and whether a sentinel `break` ended
the chunk early.  The UI flush (`App.jsx` 599-605) writes the accumulator
into the last message's `content` when eight token events accumulated or
on the chunk's final line; `batchTokens` then resets.  A `break` exits
only this per-chunk loop. -/
def procLines : String → Nat → List Msg → List LineRec → String × List Msg × Bool
  | acc, _, msgs, [] => (acc, msgs, false)
  | acc, batch, msgs, l :: rest =>
    match lineData l.text with
    | none => procLines acc batch msgs rest
    | some data =>
      let r := decodeRecord acc batch msgs data l.parsed
      if r.stop then (acc, msgs, true)
      else if 8 ≤ r.batch ∨ rest = [] then
        procLines r.acc 0 (setLast (fun m => { m with content := r.acc }) r.msgs) rest
      else
        procLines r.acc r.batch r.msgs rest

/-- The outer `while (true)` read loop (`App.jsx` 561-614): one
`procLines` pass per decoded chunk.  The loop ends only when
`reader.read()` reports `done`; the per-chunk `break` flag is discarded,
so decoding continues with the next chunk even after a sentinel. -/
def processStream : String → List Msg → List (List LineRec) → String × List Msg
  | acc, msgs, [] => (acc, msgs)
  | acc, msgs, chunk :: rest =>
    let r := procLines acc 0 msgs chunk
    processStream r.1 r.2.1 rest

/-- Network behaviour of one send, as an oracle: `fail` is a throw before
the placeholder append (the `fetch` itself, or reading the response
object); `ok chunks readFail` delivers the given decoded chunks, with
`readFail = true` when a later `reader.read()` throws after them. -/
inductive FetchOutcome
  | fail
  | ok (chunks : List (List LineRec)) (readFail : Bool)
  deriving Repr, DecidableEq

/-- The literal user-visible error reply appended by the catch branch
(`App.jsx` 635). -/
def errorReplyText : String := "Xin lỗi, đã có lỗi xảy ra."

/-- Clearing of the streaming flag and status label of one message. -/
def finalizeMsg (m : Msg) : Msg := { m with isStreaming := false, status := none }

/-- The catch branch of `sendMessage` (`App.jsx` 626-636): finalize the
last message when it is an assistant message, then append the error
reply. -/
def catchBranch (msgs : List Msg) : List Msg :=
  (match msgs.getLast? with
   | some m => if m.role = "assistant" then setLast finalizeMsg msgs else msgs
   | none => msgs)
  ++ [{ role := "assistant", content := errorReplyText }]

/-- The finish-streaming block of `sendMessage` (`App.jsx` 617-624). -/
def finishStreaming (msgs : List Msg) : List Msg := setLast finalizeMsg msgs

/-- The streaming placeholder appended before the read loop
(`App.jsx` 559). -/
def placeholderMsg : Msg := { role := "assistant", content := "", isStreaming := true }

/-- `sendMessage(text, uploadedImages)` (`App.jsx` 517-642), restricted to
its effect on the message buffer: the optimistic user append, the
placeholder append, stream decoding, and finalization or the catch
branch.  The conversation-creation side effects (`App.jsx` 543-552) touch
only the conversation list and storage, never the buffer, and are elided
here; `isLoading` / `isSendingMessageRef` bracketing has no buffer
effect. -/
def sendMessage (text : String) (imagePreviews : List String) (msgs0 : List Msg)
    (net : FetchOutcome) : List Msg :=
  let msgs1 := msgs0 ++ [{ role := "user", content := jsTrim text, images := imagePreviews }]
  match net with
  | .fail => catchBranch msgs1
  | .ok chunks readFail =>
    let msgs2 := msgs1 ++ [placeholderMsg]
    let r := processStream "" msgs2 chunks
    if readFail then catchBranch r.2 else finishStreaming r.2

/-! ### Conversation list, pin metadata, deletion -/

/-- A conversation summary as held in the `conversations` state, restricted
to the fields read or written by `togglePin` / `deleteConversation` /
`initConversations` (the object spreads preserve all other fields
unchanged). -/
structure Conv where
  id : String
  isPinned : Bool := false
  isArchived : Bool := false
  deriving Repr, DecidableEq

/-- One value of the durable `chat_metadata` object. -/
structure MetaEntry where
  isPinned : Bool
  isArchived : Bool
  deriving Repr, DecidableEq

/-- The durable `chat_metadata` storage slot as seen through
`JSON.parse(localStorage.getItem('chat_metadata') || '{}')`: `corrupt`
when the stored text is unparsable (so `JSON.parse` throws), `valid`
otherwise — a missing slot parses as the empty object. -/
inductive StoredMeta
  | corrupt
  | valid (entries : List (String × MetaEntry))
  deriving Repr, DecidableEq

/-- JS object read `metadata[id]`. -/
def metaGet (md : List (String × MetaEntry)) (id : String) : Option MetaEntry :=
  (md.find? (fun kv => kv.1 = id)).map (·.2)

/-- JS object write `metadata[id] = e` (keys are unique in a parsed JSON
object: replace when present, append otherwise). -/
def metaSet (md : List (String × MetaEntry)) (id : String) (e : MetaEntry) :
    List (String × MetaEntry) :=
  if (md.find? (fun kv => kv.1 = id)).isSome then
    md.map (fun kv => if kv.1 = id then (id, e) else kv)
  else md ++ [(id, e)]

/-- JS object delete `delete metadata[id]`. -/
def metaDel (md : List (String × MetaEntry)) (id : String) : List (String × MetaEntry) :=
  md.filter (fun kv => ¬ kv.1 = id)

/-- Number of currently pinned conversations
(`prev.filter(c => c.isPinned).length`). -/
def pinnedCount (convs : List Conv) : Nat := (convs.filter (·.isPinned)).length

/-- The state read and written by `togglePin`. -/
structure PinState where
  conversations : List Conv
  storedMeta : StoredMeta
  showPinLimitToast : Bool := false
  deriving Repr, DecidableEq

/-- The per-conversation updater of `togglePin`'s map (`App.jsx` 475-481):
the matching conversation's pin flag is negated, and pinning clears the
archived flag. -/
def togglePinFun (id : String) (c : Conv) : Conv :=
  if c.id = id then
    { c with isPinned := !c.isPinned,
             isArchived := if !c.isPinned then false else c.isArchived }
  else c

/-- `togglePin(id)` (`App.jsx` 463-489).  The cap check runs first: pinning
(not unpinning) with five conversations already pinned shows the
pin-limit toast (auto-dismissed by a timeout, not modelled) and returns
the previous state unchanged.  Otherwise the list is toggled and the
metadata persisted; the `JSON.parse` of `chat_metadata` there is *not*
wrapped in any try/catch, so a corrupt slot throws out of the updater
(`Except.error`), as does `conv.isPinned` when `id` matches no
conversation. -/
def togglePin (id : String) (s : PinState) : Except String PinState :=
  let prev := s.conversations
  let isCurrentlyPinned := ((prev.find? (fun c => c.id = id)).map (·.isPinned)).getD false
  let currentPinnedCount := pinnedCount prev
  if ¬ isCurrentlyPinned = true ∧ 5 ≤ currentPinnedCount then
    Except.ok { s with showPinLimitToast := true }
  else
    let updated := prev.map (togglePinFun id)
    match s.storedMeta with
    | .corrupt => Except.error "JSON.parse throws on chat_metadata"
    | .valid md =>
      match updated.find? (fun c => c.id = id) with
      | none => Except.error "TypeError: conv is undefined"
      | some conv =>
        Except.ok { conversations := updated,
                    storedMeta := .valid (metaSet md id ⟨conv.isPinned, conv.isArchived⟩),
                    showPinLimitToast := s.showPinLimitToast }

/-- A conversation record of `GET /conversations`, restricted to the `id`
key (the spread in the merge keeps every other backend field
unchanged). -/
structure RawConv where
  id : String
  deriving Repr, DecidableEq

/-- Observable outcome of the `initConversations` effect
(`App.jsx` 202-238), restricted to the metadata merge: the resulting
conversation list, whether `console.error` ran, and the final
`isInitializing` flag (always cleared by the `finally`). -/
structure InitOut where
  conversations : List Conv
  loggedError : Bool
  isInitializing : Bool
  deriving Repr, DecidableEq

/-- `initConversations` (`App.jsx` 202-238) as a function of its oracles:
`fetched = none` when the `fetch`/`res.json()` throws; `stored` is the
`chat_metadata` slot.  Both a failed fetch and a corrupt metadata slot
land in the same catch (the parse is *inside* the outer try), logging and
leaving the conversation list at its previous value, with the `finally`
clearing `isInitializing`.  The saved-conversation message loading
(218-229) does not touch the conversation list and is elided. -/
def initConversations (prevConvs : List Conv) (fetched : Option (List RawConv))
    (stored : StoredMeta) : InitOut :=
  match fetched with
  | none => ⟨prevConvs, true, false⟩
  | some data =>
    match stored with
    | .corrupt => ⟨prevConvs, true, false⟩
    | .valid md =>
      ⟨data.map (fun c =>
          { id := c.id,
            isPinned := ((metaGet md c.id).map (·.isPinned)).getD false,
            isArchived := ((metaGet md c.id).map (·.isArchived)).getD false }),
        false, false⟩

/-- The client-side user profile. -/
structure Profile where
  name : String
  email : String
  avatar : String
  deriving Repr, DecidableEq

/-- The bundled default avatar asset. -/
def defaultAvatar : String := "assets/pochi.jpeg"

/-- The fallback profile (`App.jsx` 50-54). -/
def defaultProfile : Profile := ⟨"Guest", "guest@example.com", defaultAvatar⟩

/-- The durable `user_profile` slot: `missing` when `getItem` is null,
`corrupt` when `JSON.parse` throws on it, `valid` otherwise. -/
inductive StoredProfile
  | missing
  | corrupt
  | valid (p : Profile)
  deriving Repr, DecidableEq

/-- The `userProfile` initial-state thunk (`App.jsx` 35-55): a corrupt slot
is caught and logged (second component `true`) and falls back to the
default profile; a valid slot is migrated when its avatar matches the old
static paths (`includes('hnam')` is substring containment on code
units). -/
def initUserProfile : StoredProfile → Profile × Bool
  | .missing => (defaultProfile, false)
  | .corrupt => (defaultProfile, true)
  | .valid p =>
    if p.avatar = "/hnam.jpeg" ∨ p.avatar = "/pochi.jpeg"
        ∨ "hnam".data <:+: p.avatar.data then
      ({ p with avatar := defaultAvatar }, false)
    else (p, false)

/-- `String.prototype.startsWith` modelled on code-unit lists. -/
def jsStartsWith (s p : String) : Bool := p.data.isPrefixOf s.data

/-- The state read and written by `deleteConversation`: the conversation
list, the current selection and its buffer, and the durable slots it can
touch (`chat_metadata`, `lastConversationId`, and all `expand_*` keys as
key/value pairs; no other `localStorage` key starts with `expand_`). -/
structure DeleteState where
  conversations : List Conv
  currentConversation : Option String
  messages : List Msg
  storedMeta : StoredMeta
  lastConversationId : Option String
  expandEntries : List (String × String)
  deriving Repr, DecidableEq

/-- `deleteConversation(id)` (`App.jsx` 407-435).  `netOk = false` models
the `fetch` throwing: nothing runs but the logging catch.  On success the
conversation is filtered out; selection, buffer and `lastConversationId`
are cleared exactly when the deleted conversation was selected; the
metadata entry is deleted when present (a corrupt slot throws into the
same catch, skipping the expand cleanup); finally every storage key
starting with the string `expand_` + id is removed. -/
def deleteConversation (id : String) (netOk : Bool) (s : DeleteState) : DeleteState :=
  if netOk then
    let remaining := s.conversations.filter (fun c => ¬ c.id = id)
    let s1 :=
      if s.currentConversation = some id then
        { s with conversations := remaining, currentConversation := none,
                 messages := [], lastConversationId := none }
      else { s with conversations := remaining }
    match s1.storedMeta with
    | .corrupt => s1
    | .valid md =>
      let s2 :=
        if (metaGet md id).isSome then { s1 with storedMeta := .valid (metaDel md id) }
        else s1
      { s2 with expandEntries :=
          s2.expandEntries.filter (fun kv => !(jsStartsWith kv.1 ("expand_" ++ id))) }
  else s

/-! ### Helper lemmas -/

set_option maxRecDepth 100000

theorem setLast_append (f : Msg → Msg) (a : List Msg) (p : Msg) :
    setLast f (a ++ [p]) = a ++ [f p] := by
  induction a with
  | nil => rfl
  | cons x xs ih =>
    cases xs with
    | nil => rfl
    | cons y ys => simpa [setLast] using ih

theorem lineData_data_append (d : String) : lineData ("data: " ++ d) = some d := by
  cases d
  rfl

theorem parseMessagesData_concat (now : Int) (init : List RawMsg) (m : RawMsg) :
    parseMessagesData now (init ++ [m]) =
      init.map (parseOne now false) ++ [parseOne now true m] := by
  induction init with
  | nil => rfl
  | cons x xs ih =>
    cases xs with
    | nil => rfl
    | cons y ys => simpa [parseMessagesData] using ih

theorem parseMessagesData_dropLast (now : Int) :
    ∀ data : List RawMsg,
      (parseMessagesData now data).dropLast = data.dropLast.map (parseOne now false)
  | [] => rfl
  | [_] => rfl
  | m :: m2 :: rest => by
    have ih := parseMessagesData_dropLast now (m2 :: rest)
    have hne : parseMessagesData now (m2 :: rest) ≠ [] := by
      cases rest <;> simp [parseMessagesData]
    show (parseOne now false m :: parseMessagesData now (m2 :: rest)).dropLast =
      ((m :: m2 :: rest).dropLast).map (parseOne now false)
    rw [List.dropLast_cons_of_ne_nil hne, ih,
      List.dropLast_cons_of_ne_nil (List.cons_ne_nil m2 rest), List.map_cons]

theorem parseOne_simulating (now : Int) (m : RawMsg)
    (hrole : m.role = "assistant") (hcontent : m.content.getD "" ≠ "")
    (hlt : Int.fdiv (now - m.created_at) 4 < ((m.content.getD "").length : Int)) :
    parseOne now true m =
      { role := m.role,
        content := jsSubstring (m.content.getD "")
          (max 0 (Int.fdiv (now - m.created_at) 4)).toNat,
        fullContent := some (m.content.getD ""),
        images := parseImages m.image_data,
        isStreaming := true,
        isSimulating := true } := by
  simp only [parseOne]
  rw [if_pos ⟨trivial, hrole, hcontent⟩, if_pos hlt]

theorem parseOne_not_simulating (now : Int) (isLast : Bool) (m : RawMsg)
    (h : ¬(isLast = true ∧ m.role = "assistant" ∧ m.content.getD "" ≠ "") ∨
         ((m.content.getD "").length : Int) ≤ Int.fdiv (now - m.created_at) 4) :
    parseOne now isLast m =
      { role := m.role, content := m.content.getD "",
        images := parseImages m.image_data,
        isStreaming := decide (m.role = "assistant" ∧ m.content.getD "" = "") } := by
  simp only [parseOne]
  rcases h with h | h
  · rw [if_neg h]
  · by_cases houter : isLast = true ∧ m.role = "assistant" ∧ m.content.getD "" ≠ ""
    · rw [if_pos houter, if_neg (not_lt.2 h)]
    · rw [if_neg houter]

theorem parseOne_false_isStreaming (now : Int) (m : RawMsg)
    (h : ¬(m.role = "assistant" ∧ m.content.getD "" = "")) :
    (parseOne now false m).isStreaming = false := by
  rw [parseOne_not_simulating now false m (Or.inl (by simp))]
  simpa using h

theorem streaming_only_at_end_filter (l : List Msg)
    (h : ∀ q ∈ l.dropLast, q.isStreaming = false) :
    (l.filter (fun q => q.isStreaming)).length ≤ 1 := by
  rcases List.eq_nil_or_concat l with rfl | ⟨L, b, rfl⟩
  · simp
  · rw [List.concat_eq_append, List.filter_append]
    have hL : L.filter (fun q => q.isStreaming) = [] :=
      List.filter_eq_nil_iff.2 fun q hq => by
        simp [h q (by simp [List.dropLast_concat, hq])]
    rw [hL]
    cases hb : b.isStreaming <;> simp [List.filter, hb]

/-! ### Claim C3 -/

/-- C3, counterexample.  `parseMessagesData` marks *every* empty assistant
record with `isStreaming = true`, not only the trailing one: a fetched
list of two empty assistant records yields a buffer with two streaming
messages, and an empty assistant record followed by a user record yields
a buffer whose streaming message is not the last.  This refutes the claim
that in every buffer produced by loading at most one message has
`isStreaming = true` and any such message is last. -/
theorem parseMessagesData_two_streaming_messages :
    (((parseMessagesData 0 [⟨"assistant", some "", none, 0⟩, ⟨"assistant", some "", none, 0⟩]).filter
        (fun q => q.isStreaming)).length = 2) ∧
    ((parseMessagesData 0 [⟨"assistant", some "", none, 0⟩, ⟨"user", some "hi", none, 0⟩]).map
        (fun q => q.isStreaming) = [true, false]) := ⟨rfl, rfl⟩

/-- C3, amended.  Provided no record before the final one is an empty
assistant record, every non-final parsed message has
`isStreaming = false`, so at most one message of the loaded buffer is
streaming and any such message is the last; and appending the streaming
placeholder of a send to a buffer with no streaming message likewise
leaves every non-final message non-streaming. -/
theorem parseMessagesData_streaming_only_last (now : Int) (data : List RawMsg)
    (h : ∀ m ∈ data.dropLast, ¬(m.role = "assistant" ∧ m.content.getD "" = "")) :
    (∀ q ∈ (parseMessagesData now data).dropLast, q.isStreaming = false) ∧
    ((parseMessagesData now data).filter (fun q => q.isStreaming)).length ≤ 1 ∧
    (∀ msgs : List Msg, (∀ q ∈ msgs, q.isStreaming = false) →
      ∀ q ∈ (msgs ++ [placeholderMsg]).dropLast, q.isStreaming = false) := by
  have hdrop : ∀ q ∈ (parseMessagesData now data).dropLast, q.isStreaming = false := by
    rw [parseMessagesData_dropLast]
    intro q hq
    obtain ⟨m, hm, rfl⟩ := List.mem_map.1 hq
    exact parseOne_false_isStreaming now m (h m hm)
  refine ⟨hdrop, streaming_only_at_end_filter _ hdrop, ?_⟩
  intro msgs hmsgs q hq
  rw [List.dropLast_concat] at hq
  exact hmsgs q hq

/-- C3, amended, witness. -/
theorem parseMessagesData_streaming_only_last_witness :
    (∀ q ∈ (parseMessagesData 100 [⟨"user", some "hi", none, 0⟩,
        ⟨"assistant", some "", none, 0⟩]).dropLast, q.isStreaming = false) ∧
    ((parseMessagesData 100 [⟨"user", some "hi", none, 0⟩,
        ⟨"assistant", some "", none, 0⟩]).filter (fun q => q.isStreaming)).length ≤ 1 ∧
    (∀ msgs : List Msg, (∀ q ∈ msgs, q.isStreaming = false) →
      ∀ q ∈ (msgs ++ [placeholderMsg]).dropLast, q.isStreaming = false) :=
  parseMessagesData_streaming_only_last 100
    [⟨"user", some "hi", none, 0⟩, ⟨"assistant", some "", none, 0⟩] (by decide)

/-! ### Claim C4 -/

/-- C4, confirmed (for a non-negative elapsed time; the claim's formula
presupposes `createdAt ≤ now`, and the negative case is claim C9).  For a
loaded list whose trailing record is an assistant message with non-empty
content, the reconstructed trailing message shows exactly the prefix of
`floor((now - createdAt) * 0.25)` code units while that value is below
the full length (with both streaming flags set), and the full content
with `isStreaming = false` otherwise. -/
theorem parseMessagesData_trailing_assistant_reveal (now : Int) (init : List RawMsg)
    (m : RawMsg) (hrole : m.role = "assistant") (hcontent : m.content.getD "" ≠ "")
    (hnow : m.created_at ≤ now) :
    ∃ pm, (parseMessagesData now (init ++ [m])).getLast? = some pm ∧
      (Int.fdiv (now - m.created_at) 4 < ((m.content.getD "").length : Int) →
        pm.content = jsSubstring (m.content.getD "") (Int.fdiv (now - m.created_at) 4).toNat ∧
        pm.content.length = (Int.fdiv (now - m.created_at) 4).toNat ∧
        pm.isStreaming = true ∧ pm.isSimulating = true) ∧
      (((m.content.getD "").length : Int) ≤ Int.fdiv (now - m.created_at) 4 →
        pm.content = m.content.getD "" ∧ pm.isStreaming = false) := by
  refine ⟨parseOne now true m, ?_, ?_, ?_⟩
  · rw [parseMessagesData_concat]
    exact List.getLast?_concat _
  · intro hlt
    have h0 : (0 : Int) ≤ Int.fdiv (now - m.created_at) 4 :=
      Int.fdiv_nonneg (by omega) (by norm_num)
    have hmax : max 0 (Int.fdiv (now - m.created_at) 4) = Int.fdiv (now - m.created_at) 4 :=
      max_eq_right h0
    rw [parseOne_simulating now m hrole hcontent hlt]
    have hlen : (Int.fdiv (now - m.created_at) 4).toNat ≤ (m.content.getD "").length := by
      have := (Int.toNat_lt h0).2 hlt
      omega
    refine ⟨by rw [hmax], ?_, rfl, rfl⟩
    show (jsSubstring (m.content.getD "") (max 0 (Int.fdiv (now - m.created_at) 4)).toNat).length
      = (Int.fdiv (now - m.created_at) 4).toNat
    rw [hmax]
    show ((m.content.getD "").data.take (Int.fdiv (now - m.created_at) 4).toNat).length
      = (Int.fdiv (now - m.created_at) 4).toNat
    have hlen' : (Int.fdiv (now - m.created_at) 4).toNat ≤ (m.content.getD "").data.length := hlen
    rw [List.length_take]
    omega
  · intro hge
    rw [parseOne_not_simulating now true m (Or.inr hge)]
    refine ⟨rfl, ?_⟩
    exact decide_eq_false fun h => hcontent h.2

/-- C4, witness: the spec's concrete scenario — a 1000-character trailing
assistant message reloaded 2000 ms after creation shows exactly its first
500 characters and is still simulating. -/
theorem parseMessagesData_trailing_assistant_reveal_witness :
    ∃ pm, (parseMessagesData 2000
        [⟨"assistant", some (String.mk (List.replicate 1000 'x')), none, 0⟩]).getLast? = some pm ∧
      pm.content = jsSubstring (String.mk (List.replicate 1000 'x')) 500 ∧
      pm.content.length = 500 ∧ pm.isStreaming = true ∧ pm.isSimulating = true := by
  have hlen : ((some (String.mk (List.replicate 1000 'x')) : Option String).getD "").length
      = 1000 := by
    show (String.mk (List.replicate 1000 'x')).length = 1000
    simp [String.length]
  have hne : (some (String.mk (List.replicate 1000 'x')) : Option String).getD "" ≠ "" := by
    intro h
    have := congrArg String.length h
    rw [hlen] at this
    simp at this
  obtain ⟨pm, h1, h2, _⟩ := parseMessagesData_trailing_assistant_reveal 2000 []
    ⟨"assistant", some (String.mk (List.replicate 1000 'x')), none, 0⟩ rfl hne (by decide)
  have h500 : ((2000 - (0 : Int)).fdiv 4).toNat = 500 := by decide
  have hlt : Int.fdiv (2000 - (0 : Int)) 4
      < (((some (String.mk (List.replicate 1000 'x')) : Option String).getD "").length : Int) := by
    rw [hlen]
    decide
  obtain ⟨hc, hl, hs, hsim⟩ := h2 hlt
  exact ⟨pm, h1, by simpa [h500] using hc, by simpa [h500] using hl, hs, hsim⟩

/-! ### Claim C5 -/

/-- C5, confirmed.  The reconstructed visible content is always a prefix of
the full content (in particular never longer), and once the elapsed time
is large enough that the computed visible length reaches the full length
the reconstruction returns exactly the full content with the simulation
flag off. -/
theorem typingSimulator_prefix_and_limit (now : Int) (isLast : Bool) (m : RawMsg) :
    (∃ t, (parseOne now isLast m).content ++ t = m.content.getD "") ∧
    (parseOne now isLast m).content.length ≤ (m.content.getD "").length ∧
    (((m.content.getD "").length : Int) ≤ Int.fdiv (now - m.created_at) 4 →
      (parseOne now isLast m).content = m.content.getD "" ∧
      (parseOne now isLast m).isSimulating = false) := by
  by_cases houter : isLast = true ∧ m.role = "assistant" ∧ m.content.getD "" ≠ ""
  · by_cases hlt : Int.fdiv (now - m.created_at) 4 < ((m.content.getD "").length : Int)
    · obtain ⟨hl, hrole, hcontent⟩ := houter
      subst hl
      rw [parseOne_simulating now m hrole hcontent hlt]
      refine ⟨⟨⟨(m.content.getD "").data.drop (max 0 (Int.fdiv (now - m.created_at) 4)).toNat⟩, ?_⟩,
        ?_, ?_⟩
      · apply String.ext
        simp [jsSubstring, List.take_append_drop]
      · show ((m.content.getD "").data.take (max 0 (Int.fdiv (now - m.created_at) 4)).toNat).length
          ≤ (m.content.getD "").length
        rw [List.length_take]
        exact inf_le_right
      · intro hge
        omega
    · rw [parseOne_not_simulating now isLast m (Or.inr (not_lt.1 hlt))]
      exact ⟨⟨"", by apply String.ext; simp⟩, le_refl _, fun _ => ⟨rfl, rfl⟩⟩
  · rw [parseOne_not_simulating now isLast m (Or.inl houter)]
    exact ⟨⟨"", by apply String.ext; simp⟩, le_refl _, fun _ => ⟨rfl, rfl⟩⟩

/-- C5, witness: at `now = 1000`, `createdAt = 0` a 3-character message is
fully revealed with the simulation flag off. -/
theorem typingSimulator_prefix_and_limit_witness :
    (parseOne 1000 true ⟨"assistant", some "abc", none, 0⟩).content = "abc" ∧
    (parseOne 1000 true ⟨"assistant", some "abc", none, 0⟩).isSimulating = false :=
  (typingSimulator_prefix_and_limit 1000 true ⟨"assistant", some "abc", none, 0⟩).2.2 (by decide)

/-! ### Claim C9 -/

/-- C9, confirmed.  When the trailing assistant record's `createdAt` lies in
the future (`now < createdAt`), the computed visible length is negative,
the `Math.max(0, _)` clamp makes the shown prefix empty, and the total
function returns the simulating shape — no exception and no
negative-length substring. -/
theorem parseOne_future_createdAt_empty_content (now : Int) (m : RawMsg)
    (hrole : m.role = "assistant") (hcontent : m.content.getD "" ≠ "")
    (hfuture : now < m.created_at) :
    (parseOne now true m).content = "" ∧
    (parseOne now true m).isStreaming = true ∧
    (parseOne now true m).isSimulating = true ∧
    (max 0 (Int.fdiv (now - m.created_at) 4)).toNat = 0 := by
  have hneg : Int.fdiv (now - m.created_at) 4 < 0 := Int.fdiv_neg' (by omega) (by norm_num)
  have hlt : Int.fdiv (now - m.created_at) 4 < ((m.content.getD "").length : Int) := by
    have : (0 : Int) ≤ ((m.content.getD "").length : Int) := Int.natCast_nonneg _
    omega
  have hmax : max 0 (Int.fdiv (now - m.created_at) 4) = 0 := max_eq_left (le_of_lt hneg)
  rw [parseOne_simulating now m hrole hcontent hlt]
  refine ⟨?_, rfl, rfl, by rw [hmax]; rfl⟩
  show jsSubstring (m.content.getD "") (max 0 (Int.fdiv (now - m.created_at) 4)).toNat = ""
  rw [hmax]
  rfl

/-- C9, witness: a message created 5 ms in the future reconstructs with
empty visible content, still simulating. -/
theorem parseOne_future_createdAt_empty_content_witness :
    (parseOne 0 true ⟨"assistant", some "abc", none, 5⟩).content = "" ∧
    (parseOne 0 true ⟨"assistant", some "abc", none, 5⟩).isStreaming = true ∧
    (parseOne 0 true ⟨"assistant", some "abc", none, 5⟩).isSimulating = true ∧
    (max 0 (Int.fdiv ((0 : Int) - 5) 4)).toNat = 0 :=
  parseOne_future_createdAt_empty_content 0 ⟨"assistant", some "abc", none, 5⟩ rfl
    (by decide) (by decide)

/-! ### Structure of the decode loop -/

/-- The decode loop only ever rewrites `content` and `status` of the final
buffer element: all other fields survive. -/
def ContentStatusOnly (p q : Msg) : Prop :=
  q.role = p.role ∧ q.images = p.images ∧ q.isStreaming = p.isStreaming ∧
  q.isSimulating = p.isSimulating ∧ q.fullContent = p.fullContent

theorem contentStatusOnly_refl (p : Msg) : ContentStatusOnly p p :=
  ⟨rfl, rfl, rfl, rfl, rfl⟩

theorem contentStatusOnly_trans {p q r : Msg} (h1 : ContentStatusOnly p q)
    (h2 : ContentStatusOnly q r) : ContentStatusOnly p r :=
  ⟨h2.1.trans h1.1, h2.2.1.trans h1.2.1, h2.2.2.1.trans h1.2.2.1,
   h2.2.2.2.1.trans h1.2.2.2.1, h2.2.2.2.2.trans h1.2.2.2.2⟩

theorem decodeRecord_msgs_last (acc : String) (batch : Nat) (a : List Msg) (p : Msg)
    (data : String) (pj : JsParsed) :
    ∃ q, (decodeRecord acc batch (a ++ [p]) data pj).msgs = a ++ [q] ∧
      ContentStatusOnly p q := by
  unfold decodeRecord
  split
  · exact ⟨p, rfl, contentStatusOnly_refl p⟩
  · cases pj with
    | objStatus st =>
      refine ⟨{ p with status := some st }, ?_, ⟨rfl, rfl, rfl, rfl, rfl⟩⟩
      show setLast (fun m => { m with status := some st }) (a ++ [p]) = _
      rw [setLast_append]
    | _ => exact ⟨p, rfl, contentStatusOnly_refl p⟩

theorem procLines_last (lines : List LineRec) :
    ∀ (acc : String) (batch : Nat) (a : List Msg) (p : Msg),
      ∃ acc' p' flag, procLines acc batch (a ++ [p]) lines = (acc', a ++ [p'], flag) ∧
        ContentStatusOnly p p' := by
  induction lines with
  | nil =>
    intro acc batch a p
    exact ⟨acc, p, false, rfl, contentStatusOnly_refl p⟩
  | cons l rest ih =>
    intro acc batch a p
    rw [procLines]
    cases hld : lineData l.text with
    | none => exact ih acc batch a p
    | some data =>
      obtain ⟨q, hq, hcso⟩ := decodeRecord_msgs_last acc batch a p data l.parsed
      cases hstop : (decodeRecord acc batch (a ++ [p]) data l.parsed).stop with
      | true =>
        refine ⟨acc, p, true, ?_, contentStatusOnly_refl p⟩
        simp [hstop]
      | false =>
        simp only [hstop, Bool.false_eq_true, if_false, hq]
        by_cases hfl : 8 ≤ (decodeRecord acc batch (a ++ [p]) data l.parsed).batch ∨ rest = []
        · rw [if_pos hfl, setLast_append]
          obtain ⟨acc', p', flag, heq, hcso'⟩ :=
            ih (decodeRecord acc batch (a ++ [p]) data l.parsed).acc 0 a
              { q with content := (decodeRecord acc batch (a ++ [p]) data l.parsed).acc }
          refine ⟨acc', p', flag, heq, ?_⟩
          exact contentStatusOnly_trans (contentStatusOnly_trans hcso ⟨rfl, rfl, rfl, rfl, rfl⟩) hcso'
        · rw [if_neg hfl]
          obtain ⟨acc', p', flag, heq, hcso'⟩ :=
            ih (decodeRecord acc batch (a ++ [p]) data l.parsed).acc
              (decodeRecord acc batch (a ++ [p]) data l.parsed).batch a q
          exact ⟨acc', p', flag, heq, contentStatusOnly_trans hcso hcso'⟩

theorem processStream_last (chunks : List (List LineRec)) :
    ∀ (acc : String) (a : List Msg) (p : Msg),
      ∃ acc' p', processStream acc (a ++ [p]) chunks = (acc', a ++ [p']) ∧
        ContentStatusOnly p p' := by
  induction chunks with
  | nil =>
    intro acc a p
    exact ⟨acc, p, rfl, contentStatusOnly_refl p⟩
  | cons chunk rest ih =>
    intro acc a p
    rw [processStream]
    obtain ⟨acc1, p1, flag, heq, hcso⟩ := procLines_last chunk acc 0 a p
    rw [heq]
    obtain ⟨acc', p', heq', hcso'⟩ := ih acc1 a p1
    exact ⟨acc', p', heq', contentStatusOnly_trans hcso hcso'⟩

theorem catchBranch_assistant (a : List Msg) (p : Msg) (h : p.role = "assistant") :
    catchBranch (a ++ [p]) =
      a ++ [finalizeMsg p, { role := "assistant", content := errorReplyText }] := by
  simp [catchBranch, List.getLast?_concat, h, setLast_append]

theorem catchBranch_not_assistant (a : List Msg) (p : Msg) (h : ¬ p.role = "assistant") :
    catchBranch (a ++ [p]) =
      a ++ [p, { role := "assistant", content := errorReplyText }] := by
  simp [catchBranch, List.getLast?_concat, h]

/-! ### Claim C1 -/

/-- C1, counterexample.  When the stream read fails after the placeholder
was appended (here: `fetch` succeeded, zero chunks arrived, then
`reader.read()` threw), the catch branch finalizes the placeholder *and*
appends a separate assistant error reply, so the send appends two
assistant messages — refuting "at most one assistant message is appended
by that send". -/
theorem sendMessage_failed_send_two_assistant_messages :
    sendMessage "hi" [] [] (.ok [] true) =
      [{ role := "user", content := "hi" },
       { role := "assistant", content := "" },
       { role := "assistant", content := errorReplyText }] ∧
    ((sendMessage "hi" [] [] (.ok [] true)).filter
      (fun m => m.role == "assistant")).length = 2 := ⟨rfl, rfl⟩

/-- C1, amended.  Every send appends exactly one optimistic user message
and at most *two* assistant messages — the placeholder plus, on a failure
after the placeholder exists, the separate error reply (exactly one on a
send whose stream completes without a read failure) — and after the send
settles no message it appended has `isStreaming = true`; pre-existing
messages are untouched. -/
theorem sendMessage_buffer_discipline (text : String) (imgs : List String)
    (msgs0 : List Msg) (net : FetchOutcome) :
    ∃ app : List Msg, sendMessage text imgs msgs0 net = msgs0 ++ app ∧
      (app.filter (fun m => m.role == "user")).length = 1 ∧
      (app.filter (fun m => m.role == "assistant")).length ≤ 2 ∧
      (∀ m ∈ app, m.isStreaming = false) ∧
      (∀ chunks, net = FetchOutcome.ok chunks false →
        (app.filter (fun m => m.role == "assistant")).length = 1) := by
  cases net with
  | fail =>
    refine ⟨[{ role := "user", content := jsTrim text, images := imgs },
             { role := "assistant", content := errorReplyText }], ?_, by rfl, by simp, by simp,
             fun chunks h => nomatch h⟩
    show catchBranch (msgs0 ++ [{ role := "user", content := jsTrim text, images := imgs }]) = _
    rw [catchBranch_not_assistant msgs0
      { role := "user", content := jsTrim text, images := imgs } (by simp)]
  | ok chunks readFail =>
    obtain ⟨acc', p', heq, hcso⟩ := processStream_last chunks ""
      (msgs0 ++ [{ role := "user", content := jsTrim text, images := imgs }]) placeholderMsg
    have hrole : p'.role = "assistant" := hcso.1
    have hfinrole : (finalizeMsg p').role = "assistant" := hrole
    cases readFail with
    | false =>
      refine ⟨[{ role := "user", content := jsTrim text, images := imgs }, finalizeMsg p'],
        ?_, ?_, ?_, ?_, ?_⟩
      · show (if false then catchBranch (processStream "" ((msgs0 ++
            [{ role := "user", content := jsTrim text, images := imgs }]) ++ [placeholderMsg])
            chunks).2
          else finishStreaming (processStream "" ((msgs0 ++
            [{ role := "user", content := jsTrim text, images := imgs }]) ++ [placeholderMsg])
            chunks).2) = _
        rw [if_neg (by simp), heq]
        show setLast finalizeMsg _ = _
        rw [setLast_append]
        simp
      · simp [List.filter, hfinrole]
      · simp [List.filter, hfinrole]
      · simp [finalizeMsg]
      · intro chunks' h
        simp [List.filter, hfinrole]
    | true =>
      refine ⟨[{ role := "user", content := jsTrim text, images := imgs }, finalizeMsg p',
        { role := "assistant", content := errorReplyText }], ?_, ?_, ?_, ?_, ?_⟩
      · show (if true then catchBranch (processStream "" ((msgs0 ++
            [{ role := "user", content := jsTrim text, images := imgs }]) ++ [placeholderMsg])
            chunks).2
          else finishStreaming (processStream "" ((msgs0 ++
            [{ role := "user", content := jsTrim text, images := imgs }]) ++ [placeholderMsg])
            chunks).2) = _
        rw [if_pos rfl, heq, catchBranch_assistant _ _ hrole]
        simp
      · simp [List.filter, hfinrole]
      · simp [List.filter, hfinrole]
      · simp [finalizeMsg]
      · intro chunks' h
        simp at h

/-- C1, amended, witness: a send with an empty successful stream appends
the user message and one finalized assistant message. -/
theorem sendMessage_buffer_discipline_witness :
    ∃ app : List Msg, sendMessage "hi" [] [] (FetchOutcome.ok [] false) = [] ++ app ∧
      (app.filter (fun m => m.role == "user")).length = 1 ∧
      (app.filter (fun m => m.role == "assistant")).length ≤ 2 ∧
      (∀ m ∈ app, m.isStreaming = false) ∧
      (∀ chunks, FetchOutcome.ok [] false = FetchOutcome.ok chunks false →
        (app.filter (fun m => m.role == "assistant")).length = 1) :=
  sendMessage_buffer_discipline "hi" [] [] (FetchOutcome.ok [] false)

/-! ### Claim C2 -/

/-- C2, counterexample.  The `break` on a sentinel exits only the per-chunk
`for` loop, not the outer read loop: with a first chunk containing
`data: [DONE]` and a second chunk containing `data: Y`, the later record
is still processed and `Y` is appended and flushed into the assistant
message — refuting "no event record arriving after such a sentinel is
processed". -/
theorem streamDecode_record_after_sentinel_processed :
    sendMessage "hi" [] []
        (.ok [[⟨"data: [DONE]", .throws⟩], [⟨"data: Y", .throws⟩]] false) =
      [{ role := "user", content := "hi" }, { role := "assistant", content := "Y" }] ∧
    (processStream "" [placeholderMsg]
        [[⟨"data: [DONE]", .throws⟩], [⟨"data: Y", .throws⟩]]).1 = "Y" := ⟨rfl, rfl⟩

/-- C2, amended.  A sentinel record (`[DONE]` literal or a `done` payload)
terminates processing of the *current chunk* — the chunk's remaining
records are not processed and the state is returned as it was at the
sentinel — but the outer read loop continues, so records in subsequent
chunks are still processed. -/
theorem streamDecode_sentinel_ends_only_current_chunk (acc : String) (batch : Nat)
    (msgs : List Msg) (d : String) (pj : JsParsed) (rest : List LineRec)
    (chunks : List (List LineRec)) (h : d = "[DONE]" ∨ pj = JsParsed.objDone) :
    procLines acc batch msgs (⟨"data: " ++ d, pj⟩ :: rest) = (acc, msgs, true) ∧
    processStream acc msgs ([⟨"data: " ++ d, pj⟩] :: chunks) = processStream acc msgs chunks := by
  have hdr : ∀ b : Nat, decodeRecord acc b msgs d pj = ⟨acc, b, msgs, true⟩ := by
    intro b
    by_cases hd : d = "[DONE]"
    · simp [decodeRecord, hd]
    · rcases h with h | h
      · exact absurd h hd
      · simp [decodeRecord, hd, h]
  have hgen : ∀ (b : Nat) (rs : List LineRec),
      procLines acc b msgs (⟨"data: " ++ d, pj⟩ :: rs) = (acc, msgs, true) := by
    intro b rs
    simp [procLines, lineData_data_append, hdr b]
  refine ⟨hgen batch rest, ?_⟩
  rw [processStream, hgen 0 []]

/-- C2, amended, witness. -/
theorem streamDecode_sentinel_ends_only_current_chunk_witness :
    procLines "A" 3 [] (⟨"data: " ++ "[DONE]", JsParsed.throws⟩ ::
      [⟨"data: X", JsParsed.throws⟩]) = ("A", [], true) ∧
    processStream "A" [] ([⟨"data: " ++ "[DONE]", JsParsed.throws⟩] ::
        [[⟨"data: X", JsParsed.throws⟩]]) =
      processStream "A" [] [[⟨"data: X", JsParsed.throws⟩]] :=
  streamDecode_sentinel_ends_only_current_chunk "A" 3 [] "[DONE]" .throws
    [⟨"data: X", .throws⟩] [[⟨"data: X", .throws⟩]] (Or.inl rfl)

/-! ### Claim C7 -/

/-- C7, counterexample.  `[1,2]` is valid JSON whose parse result is an
array — a JS object with no `type` field — so it falls through both the
tagged-object branch and the string branch of the decoder: nothing is
appended to the accumulator and the record is silently ignored rather
than appended as a raw token.  This refutes "every payload that is not
JSON *or not a recognized shape* is appended as a raw token". -/
theorem decodeRecord_unrecognized_json_not_appended :
    decodeRecord "" 0 [placeholderMsg] "[1,2]" .objOther =
      ⟨"", 0, [placeholderMsg], false⟩ ∧
    procLines "" 0 [placeholderMsg] [⟨"data: [1,2]", .objOther⟩] =
      ("", [placeholderMsg], false) := ⟨rfl, rfl⟩

/-- C7, amended.  A payload on which `JSON.parse` throws (non-JSON) is
appended to the accumulator as a raw token, and so is a payload parsing
to a JSON string; but payloads parsing to any other JSON value of
unrecognized shape (objects and arrays without a matching `type`,
numbers, booleans, null) are silently ignored. -/
theorem decodeRecord_raw_fallback_and_ignored_shapes (acc : String) (batch : Nat)
    (msgs : List Msg) (data s : String) (hne : data ≠ "[DONE]") :
    decodeRecord acc batch msgs data .throws = ⟨acc ++ data, batch + 1, msgs, false⟩ ∧
    decodeRecord acc batch msgs data (.str s) = ⟨acc ++ s, batch + 1, msgs, false⟩ ∧
    decodeRecord acc batch msgs data .objOther = ⟨acc, batch, msgs, false⟩ ∧
    decodeRecord acc batch msgs data .prim = ⟨acc, batch, msgs, false⟩ := by
  refine ⟨?_, ?_, ?_, ?_⟩ <;> simp [decodeRecord, hne]

/-- C7, amended, witness. -/
theorem decodeRecord_raw_fallback_and_ignored_shapes_witness :
    decodeRecord "a" 2 [] "XY" .throws = ⟨"a" ++ "XY", 2 + 1, [], false⟩ ∧
    decodeRecord "a" 2 [] "XY" (.str "Z") = ⟨"a" ++ "Z", 2 + 1, [], false⟩ ∧
    decodeRecord "a" 2 [] "XY" .objOther = ⟨"a", 2, [], false⟩ ∧
    decodeRecord "a" 2 [] "XY" .prim = ⟨"a", 2, [], false⟩ :=
  decodeRecord_raw_fallback_and_ignored_shapes "a" 2 [] "XY" "Z" (by decide)

/-! ### Pin counting -/

theorem pinnedCount_cons (c : Conv) (l : List Conv) :
    pinnedCount (c :: l) = (if c.isPinned then 1 else 0) + pinnedCount l := by
  simp only [pinnedCount, List.filter_cons]
  cases hc : c.isPinned <;> simp [Nat.add_comm]

theorem map_togglePinFun_of_no_match (id : String) (l : List Conv)
    (h : ∀ c ∈ l, ¬ c.id = id) : l.map (togglePinFun id) = l := by
  conv_rhs => rw [← List.map_id l]
  refine List.map_congr_left fun c hc => ?_
  simp [togglePinFun, h c hc]

theorem pinnedCount_map_togglePinFun_le (id : String) (l : List Conv)
    (hnd : (l.map (fun c => c.id)).Nodup) :
    pinnedCount (l.map (togglePinFun id)) ≤ pinnedCount l + 1 := by
  induction l with
  | nil => simp [pinnedCount]
  | cons c cs ih =>
    rw [List.map_cons, List.nodup_cons] at hnd
    rw [List.map_cons, pinnedCount_cons, pinnedCount_cons]
    by_cases hc : c.id = id
    · have hnocs : ∀ x ∈ cs, ¬ x.id = id := by
        intro x hx hxid
        apply hnd.1
        have hmem : x.id ∈ cs.map (fun c => c.id) := List.mem_map_of_mem _ hx
        rwa [hxid, ← hc] at hmem
      rw [map_togglePinFun_of_no_match id cs hnocs]
      cases hcp : c.isPinned <;> simp [togglePinFun, hc, hcp] <;> omega
    · have hhead : togglePinFun id c = c := by simp [togglePinFun, hc]
      rw [hhead]
      have hih := ih hnd.2
      cases hcp : c.isPinned <;> simp [hcp] <;> omega

theorem pinnedCount_map_togglePinFun_of_pinned (id : String) (l : List Conv)
    (hnd : (l.map (fun c => c.id)).Nodup) (c₀ : Conv)
    (hfind : l.find? (fun c => c.id = id) = some c₀) (hpin : c₀.isPinned = true) :
    pinnedCount (l.map (togglePinFun id)) ≤ pinnedCount l := by
  induction l with
  | nil => cases hfind
  | cons c cs ih =>
    rw [List.map_cons, List.nodup_cons] at hnd
    rw [List.map_cons, pinnedCount_cons, pinnedCount_cons]
    by_cases hc : c.id = id
    · have hc₀ : c₀ = c := by
        rw [List.find?_cons_of_pos _ (by simp [hc])] at hfind
        exact (Option.some.inj hfind).symm
      have hnocs : ∀ x ∈ cs, ¬ x.id = id := by
        intro x hx hxid
        apply hnd.1
        have hmem : x.id ∈ cs.map (fun c => c.id) := List.mem_map_of_mem _ hx
        rwa [hxid, ← hc] at hmem
      rw [map_togglePinFun_of_no_match id cs hnocs]
      have hcp : c.isPinned = true := by rw [← hc₀]; exact hpin
      simp [togglePinFun, hc, hcp]
    · have hfind' : cs.find? (fun c => c.id = id) = some c₀ := by
        rwa [List.find?_cons_of_neg _ (by simp [hc])] at hfind
      have hhead : togglePinFun id c = c := by simp [togglePinFun, hc]
      rw [hhead]
      have hih := ih hnd.2 hfind'
      cases hcp : c.isPinned <;> simp [hcp] <;> omega

/-! ### Claim C6 -/

/-- C6, confirmed.  From any well-formed conversation list (distinct ids)
with at most five pinned conversations, `togglePin` never returns a state
with more than five pinned; and a pin attempt when five are already
pinned and the target is not currently pinned returns the state with
*only* the transient pin-limit toast raised — the conversation list and
the persisted metadata are completely unchanged. -/
theorem togglePin_cap (id : String) (s : PinState)
    (hnodup : (s.conversations.map (fun c => c.id)).Nodup)
    (hcap : pinnedCount s.conversations ≤ 5) :
    (∀ s', togglePin id s = Except.ok s' → pinnedCount s'.conversations ≤ 5) ∧
    (5 ≤ pinnedCount s.conversations →
      ((s.conversations.find? (fun c => c.id = id)).map (fun c => c.isPinned)).getD false
        = false →
      togglePin id s = Except.ok { s with showPinLimitToast := true }) := by
  constructor
  · intro s' hok
    by_cases hrej : ¬ ((s.conversations.find? (fun c => c.id = id)).map
        (fun c => c.isPinned)).getD false = true ∧ 5 ≤ pinnedCount s.conversations
    · simp only [togglePin] at hok
      rw [if_pos hrej] at hok
      cases hok
      simpa using hcap
    · simp only [togglePin] at hok
      rw [if_neg hrej] at hok
      cases hsm : s.storedMeta with
      | corrupt => rw [hsm] at hok; cases hok
      | valid md =>
        rw [hsm] at hok
        cases hfind : (s.conversations.map (togglePinFun id)).find? (fun c => c.id = id) with
        | none => rw [hfind] at hok; cases hok
        | some conv =>
          rw [hfind] at hok
          cases hok
          show pinnedCount (s.conversations.map (togglePinFun id)) ≤ 5
          by_cases hicp : ((s.conversations.find? (fun c => c.id = id)).map
              (fun c => c.isPinned)).getD false = true
          · cases hf : s.conversations.find? (fun c => c.id = id) with
            | none => rw [hf] at hicp; exact (Bool.false_ne_true hicp).elim
            | some c₀ =>
              rw [hf] at hicp
              exact le_trans
                (pinnedCount_map_togglePinFun_of_pinned id s.conversations hnodup c₀ hf hicp)
                hcap
          · have hlt : pinnedCount s.conversations < 5 := by
              rcases Nat.lt_or_ge (pinnedCount s.conversations) 5 with h | h
              · exact h
              · exact absurd ⟨hicp, h⟩ hrej
            have := pinnedCount_map_togglePinFun_le id s.conversations hnodup
            omega
  · intro h5 hfalse
    have hrej : ¬ ((s.conversations.find? (fun c => c.id = id)).map
        (fun c => c.isPinned)).getD false = true ∧ 5 ≤ pinnedCount s.conversations :=
      ⟨by simp [hfalse], h5⟩
    simp only [togglePin]
    rw [if_pos hrej]

/-- C6, witness: five pinned conversations plus an unpinned sixth; pinning
the sixth is rejected with the toast and the state otherwise unchanged. -/
theorem togglePin_cap_witness :
    (∀ s', togglePin "f"
        ⟨[⟨"a", true, false⟩, ⟨"b", true, false⟩, ⟨"c", true, false⟩, ⟨"d", true, false⟩,
          ⟨"e", true, false⟩, ⟨"f", false, false⟩], .valid [], false⟩ = Except.ok s' →
      pinnedCount s'.conversations ≤ 5) ∧
    (5 ≤ pinnedCount ([⟨"a", true, false⟩, ⟨"b", true, false⟩, ⟨"c", true, false⟩,
        ⟨"d", true, false⟩, ⟨"e", true, false⟩, ⟨"f", false, false⟩] : List Conv) →
      ((([⟨"a", true, false⟩, ⟨"b", true, false⟩, ⟨"c", true, false⟩, ⟨"d", true, false⟩,
          ⟨"e", true, false⟩, ⟨"f", false, false⟩] : List Conv).find?
            (fun c => c.id = "f")).map (fun c => c.isPinned)).getD false = false →
      togglePin "f"
        ⟨[⟨"a", true, false⟩, ⟨"b", true, false⟩, ⟨"c", true, false⟩, ⟨"d", true, false⟩,
          ⟨"e", true, false⟩, ⟨"f", false, false⟩], .valid [], false⟩ =
        Except.ok ⟨[⟨"a", true, false⟩, ⟨"b", true, false⟩, ⟨"c", true, false⟩,
          ⟨"d", true, false⟩, ⟨"e", true, false⟩, ⟨"f", false, false⟩], .valid [], true⟩) :=
  togglePin_cap "f"
    ⟨[⟨"a", true, false⟩, ⟨"b", true, false⟩, ⟨"c", true, false⟩, ⟨"d", true, false⟩,
      ⟨"e", true, false⟩, ⟨"f", false, false⟩], .valid [], false⟩ (by decide) (by decide)

/-! ### Metadata-map and storage-key lemmas -/

theorem metaGet_metaDel_self (md : List (String × MetaEntry)) (id : String) :
    metaGet (metaDel md id) id = none := by
  have hfind : (metaDel md id).find? (fun kv => kv.1 = id) = none := by
    rw [List.find?_eq_none]
    intro kv hkv
    have h2 := (List.mem_filter.1 hkv).2
    simpa using h2
  simp [metaGet, hfind]

theorem metaGet_metaDel_other (md : List (String × MetaEntry)) (id k : String)
    (hk : k ≠ id) : metaGet (metaDel md id) k = metaGet md k := by
  unfold metaGet metaDel
  congr 1
  induction md with
  | nil => rfl
  | cons kv rest ih =>
    by_cases h1 : kv.1 = id
    · rw [List.filter_cons_of_neg (by simp [h1]),
        List.find?_cons_of_neg _ (by simp only [h1, decide_eq_true_eq]; exact fun h => hk h.symm)]
      exact ih
    · rw [List.filter_cons_of_pos (by simp [h1])]
      by_cases h2 : kv.1 = k
      · rw [List.find?_cons_of_pos _ (by simp [h2]), List.find?_cons_of_pos _ (by simp [h2])]
      · rw [List.find?_cons_of_neg _ (by simp [h2]), List.find?_cons_of_neg _ (by simp [h2])]
        exact ih

theorem metaDel_of_absent (md : List (String × MetaEntry)) (id : String)
    (h : metaGet md id = none) : metaDel md id = md := by
  unfold metaDel
  rw [List.filter_eq_self]
  intro kv hkv
  have hfind : md.find? (fun kv => kv.1 = id) = none := by
    unfold metaGet at h
    cases hfind : md.find? (fun kv => kv.1 = id) with
    | none => rfl
    | some x => rw [hfind] at h; simp at h
  have h2 := List.find?_eq_none.1 hfind kv hkv
  simpa using h2

theorem jsStartsWith_append (p t : String) : jsStartsWith (p ++ t) p = true := by
  rw [jsStartsWith]
  refine List.isPrefixOf_iff_prefix.2 ?_
  rw [String.data_append]
  exact List.prefix_append _ _

/-! ### Claim C8 -/

/-- C8, counterexample.  `togglePin`'s persistence step parses
`chat_metadata` with no surrounding try/catch (`App.jsx` 483): with a
corrupt slot the parse exception escapes the state updater instead of
being caught and logged with an empty-default fallback — refuting the
claim for the `togglePin`/`toggleArchive` persistence site. -/
theorem togglePin_corrupt_metadata_throws :
    togglePin "a" ⟨[⟨"a", false, false⟩], .corrupt, false⟩ =
      Except.error "JSON.parse throws on chat_metadata" := rfl

/-- C8, amended.  The user-profile load and the conversation-list
initialization do catch an unparsable slot, log it, and fall back to
their defaults with the view left interactive; but the
`togglePin` (and `toggleArchive`) persistence step parses the metadata
unguarded, so there a corrupt slot makes the toggle throw. -/
theorem corrupt_metadata_handling (prev : List Conv) (data : List RawConv) (id : String)
    (s : PinState) (hcorrupt : s.storedMeta = .corrupt)
    (hproceed : ((s.conversations.find? (fun c => c.id = id)).map
        (fun c => c.isPinned)).getD false = true ∨ pinnedCount s.conversations < 5) :
    initUserProfile .corrupt = (defaultProfile, true) ∧
    initConversations prev (some data) .corrupt = ⟨prev, true, false⟩ ∧
    ∃ e, togglePin id s = Except.error e := by
  refine ⟨rfl, rfl, "JSON.parse throws on chat_metadata", ?_⟩
  have hrej : ¬(¬ ((s.conversations.find? (fun c => c.id = id)).map
      (fun c => c.isPinned)).getD false = true ∧ 5 ≤ pinnedCount s.conversations) := by
    rcases hproceed with h | h
    · intro hc
      exact hc.1 h
    · intro hc
      omega
  simp only [togglePin]
  rw [if_neg hrej, hcorrupt]

/-- C8, amended, witness. -/
theorem corrupt_metadata_handling_witness :
    initUserProfile .corrupt = (defaultProfile, true) ∧
    initConversations [] (some [⟨"c1"⟩]) .corrupt = ⟨[], true, false⟩ ∧
    ∃ e, togglePin "p" ⟨[⟨"p", true, false⟩], .corrupt, false⟩ = Except.error e :=
  corrupt_metadata_handling [] [⟨"c1"⟩] "p" ⟨[⟨"p", true, false⟩], .corrupt, false⟩ rfl
    (Or.inl (by decide))

/-! ### Claim C10 -/

/-- C10, counterexample.  The expand-flag cleanup removes every storage key
starting with the string `expand_` + id with no trailing separator: when
another conversation's id extends the deleted one (`"ab"` extends
`"a"`), deleting `"a"` also deletes `"ab"`'s per-message expanded flag
`expand_ab_0`, although conversation `"ab"` itself survives — refuting
"all other conversations' entries and metadata are unchanged". -/
theorem deleteConversation_collateral_expand_removal :
    (deleteConversation "a" true
      ⟨[⟨"a", false, false⟩, ⟨"ab", false, false⟩], none, [], .valid [], none,
        [("expand_ab_0", "true")]⟩).expandEntries = [] ∧
    (deleteConversation "a" true
      ⟨[⟨"a", false, false⟩, ⟨"ab", false, false⟩], none, [], .valid [], none,
        [("expand_ab_0", "true")]⟩).conversations = [⟨"ab", false, false⟩] := ⟨rfl, rfl⟩

/-- C10, amended.  On a successful delete with parsable metadata:
the conversation is removed from the list (all others kept, in order);
its metadata entry is deleted and every other id's entry kept; every
storage key extending `expand_` + id is removed — which is every expanded
flag of the deleted conversation, but also the flags of any other
conversation whose id extends the deleted id — and every key not
extending `expand_` + id is kept; the selection, buffer and stored last
conversation id are cleared exactly when the deleted conversation was the
selected one. -/
theorem deleteConversation_effects (id : String) (md : List (String × MetaEntry))
    (s : DeleteState) (hmeta : s.storedMeta = .valid md) :
    (∀ c ∈ (deleteConversation id true s).conversations, ¬ c.id = id) ∧
    (deleteConversation id true s).conversations
      = s.conversations.filter (fun c => ¬ c.id = id) ∧
    (deleteConversation id true s).storedMeta = .valid (metaDel md id) ∧
    metaGet (metaDel md id) id = none ∧
    (∀ k, k ≠ id → metaGet (metaDel md id) k = metaGet md k) ∧
    (deleteConversation id true s).expandEntries
      = s.expandEntries.filter (fun kv => !(jsStartsWith kv.1 ("expand_" ++ id))) ∧
    (∀ t v, ((("expand_" ++ id) ++ t, v) : String × String)
      ∉ (deleteConversation id true s).expandEntries) ∧
    (∀ kv ∈ s.expandEntries, jsStartsWith kv.1 ("expand_" ++ id) = false →
      kv ∈ (deleteConversation id true s).expandEntries) ∧
    (s.currentConversation = some id →
      (deleteConversation id true s).currentConversation = none ∧
      (deleteConversation id true s).messages = [] ∧
      (deleteConversation id true s).lastConversationId = none) ∧
    (¬ s.currentConversation = some id →
      (deleteConversation id true s).currentConversation = s.currentConversation ∧
      (deleteConversation id true s).messages = s.messages ∧
      (deleteConversation id true s).lastConversationId = s.lastConversationId) := by
  have hdel : deleteConversation id true s =
      { conversations := s.conversations.filter (fun c => ¬ c.id = id),
        currentConversation :=
          if s.currentConversation = some id then none else s.currentConversation,
        messages := if s.currentConversation = some id then [] else s.messages,
        storedMeta := .valid (metaDel md id),
        lastConversationId :=
          if s.currentConversation = some id then none else s.lastConversationId,
        expandEntries :=
          s.expandEntries.filter (fun kv => !(jsStartsWith kv.1 ("expand_" ++ id))) } := by
    by_cases hcur : s.currentConversation = some id
    · by_cases hg : (metaGet md id).isSome
      · simp [deleteConversation, hcur, hmeta, hg]
      · have habs : metaGet md id = none := Option.not_isSome_iff_eq_none.1 hg
        simp [deleteConversation, hcur, hmeta, hg, metaDel_of_absent md id habs]
    · by_cases hg : (metaGet md id).isSome
      · simp [deleteConversation, hcur, hmeta, hg]
      · have habs : metaGet md id = none := Option.not_isSome_iff_eq_none.1 hg
        simp [deleteConversation, hcur, hmeta, hg, metaDel_of_absent md id habs]
  refine ⟨?_, ?_, ?_, metaGet_metaDel_self md id, fun k hk => metaGet_metaDel_other md id k hk,
    ?_, ?_, ?_, ?_, ?_⟩
  · rw [hdel]
    intro c hc
    have h2 := (List.mem_filter.1 hc).2
    simpa using h2
  · rw [hdel]
  · rw [hdel]
  · rw [hdel]
  · rw [hdel]
    intro t v hmem
    have h2 := (List.mem_filter.1 hmem).2
    rw [Bool.not_eq_eq_eq_not] at h2
    rw [jsStartsWith_append ("expand_" ++ id) t] at h2
    cases h2
  · rw [hdel]
    intro kv hkv hks
    exact List.mem_filter.2 ⟨hkv, by simp [hks]⟩
  · intro hcur
    rw [hdel]
    simp [hcur]
  · intro hcur
    rw [hdel]
    simp [hcur]

/-- C10, amended, witness. -/
theorem deleteConversation_effects_witness :
    (∀ c ∈ (deleteConversation "x" true
        ⟨[⟨"x", false, false⟩, ⟨"y", true, false⟩], some "x", [],
          .valid [("x", ⟨false, false⟩), ("y", ⟨true, false⟩)], some "x",
          [("expand_x_0", "true"), ("expand_y_3", "true")]⟩).conversations, ¬ c.id = "x") ∧
    (deleteConversation "x" true
        ⟨[⟨"x", false, false⟩, ⟨"y", true, false⟩], some "x", [],
          .valid [("x", ⟨false, false⟩), ("y", ⟨true, false⟩)], some "x",
          [("expand_x_0", "true"), ("expand_y_3", "true")]⟩).conversations
      = ([⟨"x", false, false⟩, ⟨"y", true, false⟩] : List Conv).filter (fun c => ¬ c.id = "x") ∧
    (deleteConversation "x" true
        ⟨[⟨"x", false, false⟩, ⟨"y", true, false⟩], some "x", [],
          .valid [("x", ⟨false, false⟩), ("y", ⟨true, false⟩)], some "x",
          [("expand_x_0", "true"), ("expand_y_3", "true")]⟩).storedMeta
      = .valid (metaDel [("x", ⟨false, false⟩), ("y", ⟨true, false⟩)] "x") ∧
    metaGet (metaDel [("x", ⟨false, false⟩), ("y", ⟨true, false⟩)] "x") "x" = none ∧
    (∀ k, k ≠ "x" →
      metaGet (metaDel [("x", ⟨false, false⟩), ("y", ⟨true, false⟩)] "x") k
        = metaGet [("x", ⟨false, false⟩), ("y", ⟨true, false⟩)] k) ∧
    (deleteConversation "x" true
        ⟨[⟨"x", false, false⟩, ⟨"y", true, false⟩], some "x", [],
          .valid [("x", ⟨false, false⟩), ("y", ⟨true, false⟩)], some "x",
          [("expand_x_0", "true"), ("expand_y_3", "true")]⟩).expandEntries
      = ([("expand_x_0", "true"), ("expand_y_3", "true")] : List (String × String)).filter
          (fun kv => !(jsStartsWith kv.1 ("expand_" ++ "x"))) ∧
    (∀ t v, ((("expand_" ++ "x") ++ t, v) : String × String)
      ∉ (deleteConversation "x" true
        ⟨[⟨"x", false, false⟩, ⟨"y", true, false⟩], some "x", [],
          .valid [("x", ⟨false, false⟩), ("y", ⟨true, false⟩)], some "x",
          [("expand_x_0", "true"), ("expand_y_3", "true")]⟩).expandEntries) ∧
    (∀ kv ∈ ([("expand_x_0", "true"), ("expand_y_3", "true")] : List (String × String)),
      jsStartsWith kv.1 ("expand_" ++ "x") = false →
      kv ∈ (deleteConversation "x" true
        ⟨[⟨"x", false, false⟩, ⟨"y", true, false⟩], some "x", [],
          .valid [("x", ⟨false, false⟩), ("y", ⟨true, false⟩)], some "x",
          [("expand_x_0", "true"), ("expand_y_3", "true")]⟩).expandEntries) ∧
    ((some "x" : Option String) = some "x" →
      (deleteConversation "x" true
        ⟨[⟨"x", false, false⟩, ⟨"y", true, false⟩], some "x", [],
          .valid [("x", ⟨false, false⟩), ("y", ⟨true, false⟩)], some "x",
          [("expand_x_0", "true"), ("expand_y_3", "true")]⟩).currentConversation = none ∧
      (deleteConversation "x" true
        ⟨[⟨"x", false, false⟩, ⟨"y", true, false⟩], some "x", [],
          .valid [("x", ⟨false, false⟩), ("y", ⟨true, false⟩)], some "x",
          [("expand_x_0", "true"), ("expand_y_3", "true")]⟩).messages = [] ∧
      (deleteConversation "x" true
        ⟨[⟨"x", false, false⟩, ⟨"y", true, false⟩], some "x", [],
          .valid [("x", ⟨false, false⟩), ("y", ⟨true, false⟩)], some "x",
          [("expand_x_0", "true"), ("expand_y_3", "true")]⟩).lastConversationId = none) ∧
    (¬ (some "x" : Option String) = some "x" →
      (deleteConversation "x" true
        ⟨[⟨"x", false, false⟩, ⟨"y", true, false⟩], some "x", [],
          .valid [("x", ⟨false, false⟩), ("y", ⟨true, false⟩)], some "x",
          [("expand_x_0", "true"), ("expand_y_3", "true")]⟩).currentConversation = some "x" ∧
      (deleteConversation "x" true
        ⟨[⟨"x", false, false⟩, ⟨"y", true, false⟩], some "x", [],
          .valid [("x", ⟨false, false⟩), ("y", ⟨true, false⟩)], some "x",
          [("expand_x_0", "true"), ("expand_y_3", "true")]⟩).messages = [] ∧
      (deleteConversation "x" true
        ⟨[⟨"x", false, false⟩, ⟨"y", true, false⟩], some "x", [],
          .valid [("x", ⟨false, false⟩), ("y", ⟨true, false⟩)], some "x",
          [("expand_x_0", "true"), ("expand_y_3", "true")]⟩).lastConversationId = some "x") :=
  deleteConversation_effects "x" [("x", ⟨false, false⟩), ("y", ⟨true, false⟩)]
    ⟨[⟨"x", false, false⟩, ⟨"y", true, false⟩], some "x", [],
      .valid [("x", ⟨false, false⟩), ("y", ⟨true, false⟩)], some "x",
      [("expand_x_0", "true"), ("expand_y_3", "true")]⟩ rfl

end CalcAgent
